import Mathlib

/-
  Verification development for the barcode point-of-sale helper.

  The program keeps an in-memory product catalog (a list of products),
  synchronizes it with a local key-value store, resolves scanned barcodes
  to products, and accumulates a session cart.  The embedding below
  translates the two source files:

  * the inventory hook (catalog state, CRUD, lookup, import/export, load)
  * the application component (cart state, scan handling, total)

  Numbers of the host language are modelled as exact rationals; strings as
  Lean strings.  The host JSON functions (parse / stringify) are modelled
  at the level of parsed JSON values: a payload string is represented by
  its parse result, `none` standing for a parse error.
-/

namespace Shop

/-- The Product record of the inventory module: `id`, `barcode`, `name`,
`price`, `stock`, and an optional `category`. -/
structure Product where
  id : String
  barcode : String
  name : String
  price : ℚ
  stock : ℚ
  category : Option String
deriving DecidableEq, Repr

/-- Catalog add: `setProducts(prev => [...prev, product])` — appends the
new product at the end of the list. -/
def addProduct (prev : List Product) (product : Product) : List Product :=
  prev ++ [product]

/-- Catalog update: `prev.map(p => p.id === updatedProduct.id ? updatedProduct : p)`
— replaces every entry whose `id` matches, keeps the rest. -/
def updateProduct (prev : List Product) (updatedProduct : Product) : List Product :=
  prev.map (fun p => if p.id == updatedProduct.id then updatedProduct else p)

/-- Catalog delete: `prev.filter(p => p.id !== id)`. -/
def deleteProduct (prev : List Product) (id : String) : List Product :=
  prev.filter (fun p => p.id != id)

/-- Barcode lookup: `products.find(p => p.barcode === barcode)` — first
match in store order, or an absence signal. -/
def findByBarcode (products : List Product) (barcode : String) : Option Product :=
  products.find? (fun p => p.barcode == barcode)

/-- A JSON value, the parse result of a payload string. -/
inductive Json where
  | null : Json
  | bool (b : Bool) : Json
  | num (q : ℚ) : Json
  | str (s : String) : Json
  | arr (elems : List Json) : Json
  | obj (fields : List (String × Json)) : Json

/-- Import: parse the payload (`none` models a parse error, caught by the
`try`/`catch`); if the parsed value is an array, store its elements as the
new catalog — with no validation of the elements — and return `true`;
otherwise leave the catalog alone and return `false`.  The stored state is
kept at the JSON level because the host language erases types: whatever
the array holds is assigned to the products state unchanged. -/
def importData (parsed : Option Json) (products : List Json) : List Json × Bool :=
  match parsed with
  | some (Json.arr data) => (data, true)
  | some _ => (products, false)
  | none => (products, false)

/-- Field lookup in a JSON object, first binding of the key. -/
def getField (fields : List (String × Json)) (key : String) : Option Json :=
  match fields with
  | [] => none
  | (k, v) :: rest => if k == key then some v else getField rest key

/-- Project a JSON value to a string, if it is one. -/
def asStr : Option Json → Option String
  | some (Json.str s) => some s
  | _ => none

/-- Project a JSON value to a number, if it is one. -/
def asNum : Option Json → Option ℚ
  | some (Json.num q) => some q
  | _ => none

/-- The JSON encoding of one product, in the field order of the record; an
absent `category` is omitted, as `stringify` omits undefined fields. -/
def encodeProduct (p : Product) : Json :=
  Json.obj ([("id", Json.str p.id), ("barcode", Json.str p.barcode),
             ("name", Json.str p.name), ("price", Json.num p.price),
             ("stock", Json.num p.stock)] ++
            (match p.category with
             | some c => [("category", Json.str c)]
             | none => []))

/-- Modelled from the spec: a product-shaped JSON record, decoded back to
a Product.  The source never validates records; this decoder formalises
the sequence-of-product-shaped-records notion the spec uses. -/
def decodeProduct (j : Json) : Option Product :=
  match j with
  | Json.obj fields =>
      match asStr (getField fields "id"), asStr (getField fields "barcode"),
            asStr (getField fields "name"), asNum (getField fields "price"),
            asNum (getField fields "stock") with
      | some i, some b, some n, some pr, some st =>
          some { id := i, barcode := b, name := n, price := pr, stock := st,
                 category := asStr (getField fields "category") }
      | _, _, _, _, _ => none
  | _ => none

/-- Modelled from the spec: decoding a whole catalog, failing if any
element is not product-shaped. -/
def decodeCatalog : List Json → Option (List Product)
  | [] => some []
  | j :: rest =>
      match decodeProduct j, decodeCatalog rest with
      | some p, some ps => some (p :: ps)
      | _, _ => none

/-- Export: `JSON.stringify(products, null, 2)`.  The payload string is
represented by its parsed JSON value; the host guarantees that parsing a
stringified value yields the value back, so export is modelled as the
JSON array of encoded products. -/
def exportData (products : List Product) : Json :=
  Json.arr (products.map encodeProduct)

/-- The load effect at mount: products start as `[]`; if the persisted key
holds a value, parse it; on success the parse result becomes the state, on
a parse error (caught) the state is left empty.  Input: `none` = key
absent (or empty), `some none` = present but unparsable, `some (some j)` =
parses to `j`.  The function is total: no case raises. -/
def loadCatalog (saved : Option (Option Json)) : Json :=
  match saved with
  | none => Json.arr []
  | some none => Json.arr []
  | some (some data) => data

/-- One cart line: a product snapshot and a quantity. -/
structure CartItem where
  product : Product
  quantity : ℚ
deriving DecidableEq, Repr

/-- The checkout total: `cart.reduce((sum, item) => sum + item.product.price * item.quantity, 0)`. -/
def totalAmount (cart : List CartItem) : ℚ :=
  cart.foldl (fun sum item => sum + item.product.price * item.quantity) 0

/-- The editing form state seeded when a scan resolves to no product. -/
structure DraftProduct where
  barcode : String
  name : String
  price : ℚ
  stock : ℚ
deriving DecidableEq, Repr

/-- The application state the scan handler touches: the catalog (from the
inventory hook), the session cart, the scanning flag, and the modal
state. -/
structure AppState where
  products : List Product
  cart : List CartItem
  isScanning : Bool
  isModalOpen : Bool
  editingProduct : Option DraftProduct
deriving Repr

/-- The cart update inside the scan handler's found branch: if a line with
the scanned barcode exists, increment the quantity of every line with that
barcode; otherwise append a new line with quantity 1. -/
def scanCartUpdate (prev : List CartItem) (product : Product) (barcode : String) :
    List CartItem :=
  match prev.find? (fun item => item.product.barcode == barcode) with
  | some _ =>
      prev.map (fun item =>
        if item.product.barcode == barcode
        then { item with quantity := item.quantity + 1 }
        else item)
  | none => prev ++ [{ product := product, quantity := 1 }]

/-- The scan handler: resolve the barcode; if found, merge into the cart;
if not found, seed the add-product modal with the barcode.  In both
branches the scanning flag is cleared at the end. -/
def handleScan (s : AppState) (barcode : String) : AppState :=
  match findByBarcode s.products barcode with
  | some product =>
      { s with cart := scanCartUpdate s.cart product barcode, isScanning := false }
  | none =>
      { s with editingProduct := some { barcode := barcode, name := "", price := 0, stock := 0 },
               isModalOpen := true,
               isScanning := false }

/-- Catalog mutations lifted to the application state. -/
def appUpdateProduct (s : AppState) (p : Product) : AppState :=
  { s with products := updateProduct s.products p }

/-- Catalog delete lifted to the application state. -/
def appDeleteProduct (s : AppState) (i : String) : AppState :=
  { s with products := deleteProduct s.products i }

/-- A catalog mutation event. -/
inductive CatalogOp where
  | add (product : Product)
  | update (product : Product)
  | delete (id : String)
deriving DecidableEq, Repr

/-- Apply one mutation to the catalog. -/
def applyOp (products : List Product) : CatalogOp → List Product
  | CatalogOp.add p => addProduct products p
  | CatalogOp.update p => updateProduct products p
  | CatalogOp.delete i => deleteProduct products i

/-- Run a sequence of mutations from the empty catalog. -/
def applyOps (ops : List CatalogOp) : List Product :=
  ops.foldl applyOp []

/-- The ids supplied to add operations, in order. -/
def addIds : List CatalogOp → List String
  | [] => []
  | CatalogOp.add p :: rest => p.id :: addIds rest
  | CatalogOp.update _ :: rest => addIds rest
  | CatalogOp.delete _ :: rest => addIds rest

/-- Modelled from the spec: the value the history assigns to one id.  An
add of the id installs the added product; an update of the id replaces the
value when one is present (an update of an absent id takes no effect); a
delete of the id removes the value.  Folding this over the history yields
the most recent update's field values, or the original add's if never
updated, and nothing once the id is deleted. -/
def trackOp (i : String) (cur : Option Product) : CatalogOp → Option Product
  | CatalogOp.add p => if p.id = i then some p else cur
  | CatalogOp.update p =>
      if p.id = i then (match cur with | some _ => some p | none => none) else cur
  | CatalogOp.delete j => if j = i then none else cur

/-- Modelled from the spec: the expected value of id `i` after a history. -/
def specValue (ops : List CatalogOp) (i : String) : Option Product :=
  ops.foldl (trackOp i) none

/-- A sample catalog entry used in witnesses. -/
def demoA : Product :=
  { id := "a1", barcode := "6901", name := "cola", price := 99/10, stock := 10,
    category := none }

/-- A second sample catalog entry used in witnesses. -/
def demoB : Product :=
  { id := "b2", barcode := "6902", name := "water", price := 1/2, stock := 5,
    category := some "drinks" }

/-- A sample application state used in witnesses: one catalog product, an
empty cart, scanning armed. -/
def demoState : AppState :=
  { products := [demoA], cart := [], isScanning := true, isModalOpen := false,
    editingProduct := none }

theorem updateProduct_noop (l : List Product) (p : Product) :
    (∀ q ∈ l, q.id ≠ p.id) → updateProduct l p = l := by
  induction l with
  | nil => intro _; rfl
  | cons a t ih =>
      intro hu
      have ha : ¬ a.id = p.id := hu a (List.mem_cons_self a t)
      have ht := ih fun q hq => hu q (List.mem_cons_of_mem a hq)
      simp only [updateProduct, List.map_cons] at ht ⊢
      rw [if_neg (by simpa using ha), ht]

theorem deleteProduct_noop (l : List Product) (i : String) :
    (∀ q ∈ l, q.id ≠ i) → deleteProduct l i = l := by
  induction l with
  | nil => intro _; rfl
  | cons a t ih =>
      intro hd
      have ha : ¬ a.id = i := hd a (List.mem_cons_self a t)
      have ht := ih fun q hq => hd q (List.mem_cons_of_mem a hq)
      simp only [deleteProduct, List.filter_cons] at ht ⊢
      rw [if_pos (by simpa using ha), ht]

theorem decodeProduct_encodeProduct (p : Product) :
    decodeProduct (encodeProduct p) = some p := by
  cases p with
  | mk i b n pr st c => cases c <;> rfl

theorem decodeCatalog_encode (ps : List Product) :
    decodeCatalog (ps.map encodeProduct) = some ps := by
  induction ps with
  | nil => rfl
  | cons p t ih =>
      simp only [List.map_cons, decodeCatalog, decodeProduct_encodeProduct, ih]

/-- C2: the total over the empty cart is exactly 0, and over the two-line
cart with prices 9.9 and 0.5 at quantities 2 and 1 it is exactly 20.3,
the sum of `price * quantity` over the lines computed in the exact
rational model of the host numbers, with no rounding anywhere. -/
theorem totalAmount_values :
    totalAmount [] = 0 ∧
    totalAmount [{ product := demoA, quantity := 2 },
                 { product := demoB, quantity := 1 }] = 203/10 := by
  constructor
  · rfl
  · norm_num [totalAmount, demoA, demoB, List.foldl]

/-- C7: updating with an id that matches no catalog entry, or deleting an
id not present, leaves the catalog exactly unchanged; both operations are
total functions that signal no error. -/
theorem missing_id_silent_noop (l : List Product) (p : Product) (i : String)
    (hu : ∀ q ∈ l, q.id ≠ p.id) (hd : ∀ q ∈ l, q.id ≠ i) :
    updateProduct l p = l ∧ deleteProduct l i = l :=
  ⟨updateProduct_noop l p hu, deleteProduct_noop l i hd⟩

/-- Witness for C7 at a concrete catalog: updating with an unknown id and
deleting an absent id leave the one-product catalog unchanged. -/
theorem missing_id_silent_noop_witness :
    updateProduct [demoA] demoB = [demoA] ∧ deleteProduct [demoA] "zz" = [demoA] :=
  missing_id_silent_noop [demoA] demoB "zz" (by decide) (by decide)

/-- C8: loading is fail-soft — an absent persisted value and an unparsable
one both leave the catalog empty, while a valid serialized catalog becomes
the in-memory product list (its decoding yields the original products);
`loadCatalog` is a total function, so no case raises to the caller. -/
theorem load_fail_soft :
    loadCatalog none = Json.arr [] ∧
    loadCatalog (some none) = Json.arr [] ∧
    ∀ ps : List Product,
      loadCatalog (some (some (exportData ps))) = Json.arr (ps.map encodeProduct) ∧
      decodeCatalog (ps.map encodeProduct) = some ps :=
  ⟨rfl, rfl, fun ps => ⟨rfl, decodeCatalog_encode ps⟩⟩

/-- C9: cart lines are snapshots — a catalog update or delete leaves the
session cart, and hence every cart line's product data, unchanged. -/
theorem cart_snapshot_frame (s : AppState) (p : Product) (i : String) :
    (appUpdateProduct s p).cart = s.cart ∧ (appDeleteProduct s i).cart = s.cart :=
  ⟨rfl, rfl⟩

/-- C10: after every processed scan event — resolved or unresolved — the
scanning flag is false, so the operator must re-arm scanning explicitly. -/
theorem scan_clears_scanning (s : AppState) (b : String) :
    (handleScan s b).isScanning = false := by
  unfold handleScan
  cases findByBarcode s.products b <;> rfl

/-- C1 counterexample: the payload parsing to the one-element array `[1]`
has a top-level sequence whose element is not product-shaped, yet import
returns success and replaces the catalog with the junk element, instead of
failing and leaving the catalog untouched as the claim requires. -/
theorem importData_shape_unchecked :
    decodeProduct (Json.num 1) = none ∧
    importData (some (Json.arr [Json.num 1])) [] = ([Json.num 1], true) ∧
    importData (some (Json.arr [Json.num 1])) [] ≠ (([] : List Json), false) := by
  refine ⟨rfl, rfl, ?_⟩
  intro h
  simpa [importData] using congrArg Prod.snd h

/-- C1 amended: if parsing fails or the parsed top-level value is not an
array, import returns a failure signal and the catalog is exactly the
catalog before the call; if the top-level value is an array, import
replaces the catalog wholesale with the array's elements — without
validating that they are product-shaped — and returns success. -/
theorem importData_array_gate (parsed : Option Json) (catalog : List Json) :
    ((∀ xs, parsed ≠ some (Json.arr xs)) → importData parsed catalog = (catalog, false)) ∧
    (∀ xs, parsed = some (Json.arr xs) → importData parsed catalog = (xs, true)) := by
  constructor
  · intro h
    cases parsed with
    | none => rfl
    | some j =>
        cases j with
        | null => rfl
        | bool v => rfl
        | num q => rfl
        | str t => rfl
        | arr xs => exact absurd rfl (h xs)
        | obj f => rfl
  · intro xs h
    subst h
    rfl

/-- Witness for C1's amended theorem: a parse failure leaves a concrete
catalog untouched with a failure signal, and an array payload replaces it
with success. -/
theorem importData_array_gate_witness :
    importData none [Json.bool true] = ([Json.bool true], false) ∧
    importData (some (Json.arr [])) [Json.bool true] = ([], true) :=
  ⟨(importData_array_gate none [Json.bool true]).1 (fun xs h => by simp at h),
   (importData_array_gate (some (Json.arr [])) [Json.bool true]).2 [] rfl⟩

/-- C6: importing the export of any catalog succeeds, and the resulting
catalog is exactly the exported products — decoding it recovers the
original product list. -/
theorem export_import_roundtrip (ps : List Product) (catalog : List Json) :
    importData (some (exportData ps)) catalog = (ps.map encodeProduct, true) ∧
    decodeCatalog (importData (some (exportData ps)) catalog).1 = some ps :=
  ⟨rfl, decodeCatalog_encode ps⟩

theorem map_id_updateProduct (l : List Product) (p : Product) :
    (updateProduct l p).map Product.id = l.map Product.id := by
  induction l with
  | nil => rfl
  | cons a t ih =>
      simp only [updateProduct, List.map_cons] at ih ⊢
      rw [ih]
      by_cases h : a.id = p.id
      · rw [if_pos (by simpa using h)]
        simp [h]
      · rw [if_neg (by simpa using h)]

theorem mem_addIds {ops : List CatalogOp} {q : Product}
    (h : CatalogOp.add q ∈ ops) : q.id ∈ addIds ops := by
  induction ops with
  | nil => cases h
  | cons op rest ih =>
      rcases List.mem_cons.mp h with h1 | h1
      · rw [← h1]
        simp [addIds]
      · cases op with
        | add r => exact List.mem_cons_of_mem _ (ih h1)
        | update r => exact ih h1
        | delete j => exact ih h1

theorem find?_addProduct (l : List Product) (p : Product) (i : String)
    (hp : p.id ∉ l.map Product.id) :
    (addProduct l p).find? (fun q => q.id == i) =
      trackOp i (l.find? (fun q => q.id == i)) (CatalogOp.add p) := by
  unfold addProduct trackOp
  rw [List.find?_append]
  by_cases h : p.id = i
  · have hnone : l.find? (fun q => q.id == i) = none := by
      rw [List.find?_eq_none]
      intro x hx
      simp only [beq_iff_eq]
      intro hxi
      exact hp (List.mem_map.mpr ⟨x, hx, by rw [hxi, h]⟩)
    simp [hnone, h]
  · simp [List.find?_cons_of_neg, h]

theorem find?_updateProduct (l : List Product) (p : Product) (i : String) :
    (updateProduct l p).find? (fun q => q.id == i) =
      trackOp i (l.find? (fun q => q.id == i)) (CatalogOp.update p) := by
  induction l with
  | nil => by_cases h : p.id = i <;> simp [updateProduct, trackOp, h]
  | cons a t ih =>
      simp only [updateProduct, List.map_cons] at ih ⊢
      by_cases hap : a.id = p.id
      · rw [if_pos (by simpa using hap)]
        by_cases hpi : p.id = i
        · rw [List.find?_cons_of_pos _ (by simp [hpi]),
              List.find?_cons_of_pos (p := fun q : Product => q.id == i) _ (by simp [hap, hpi])]
          simp [trackOp, hpi]
        · rw [List.find?_cons_of_neg _ (by simp [hpi]),
              List.find?_cons_of_neg (p := fun q : Product => q.id == i) _ (by simp [hap, hpi])]
          exact ih
      · rw [if_neg (by simpa using hap)]
        by_cases hai : a.id = i
        · rw [List.find?_cons_of_pos _ (by simp [hai]),
              List.find?_cons_of_pos (p := fun q : Product => q.id == i) _ (by simp [hai])]
          have hpi : ¬ p.id = i := fun hh => hap (hai.trans hh.symm)
          simp [trackOp, hpi]
        · rw [List.find?_cons_of_neg _ (by simp [hai]),
              List.find?_cons_of_neg (p := fun q : Product => q.id == i) _ (by simp [hai])]
          exact ih

theorem find?_deleteProduct (l : List Product) (j i : String) :
    (deleteProduct l j).find? (fun q => q.id == i) =
      trackOp i (l.find? (fun q => q.id == i)) (CatalogOp.delete j) := by
  induction l with
  | nil => by_cases h : j = i <;> simp [deleteProduct, trackOp, h]
  | cons a t ih =>
      simp only [deleteProduct, List.filter_cons] at ih ⊢
      by_cases haj : a.id = j
      · rw [if_neg (by simp [haj])]
        by_cases hai : a.id = i
        · have hji : j = i := haj.symm.trans hai
          rw [List.find?_cons_of_pos (p := fun q : Product => q.id == i) _ (by simp [hai])]
          rw [ih]
          simp [trackOp, hji]
        · rw [List.find?_cons_of_neg (p := fun q : Product => q.id == i) _ (by simp [hai])]
          exact ih
      · rw [if_pos (by simp [haj])]
        by_cases hai : a.id = i
        · have hji : ¬ j = i := fun hh => haj (hai.trans hh.symm)
          rw [List.find?_cons_of_pos _ (by simp [hai]),
              List.find?_cons_of_pos (p := fun q : Product => q.id == i) _ (by simp [hai])]
          simp [trackOp, hji]
        · rw [List.find?_cons_of_neg _ (by simp [hai]),
              List.find?_cons_of_neg (p := fun q : Product => q.id == i) _ (by simp [hai])]
          exact ih

theorem foldl_applyOp_char (ops : List CatalogOp) :
    ∀ l : List Product, (l.map Product.id).Nodup →
      (∀ p, CatalogOp.add p ∈ ops → p.id ∉ l.map Product.id) →
      (addIds ops).Nodup →
      ((ops.foldl applyOp l).map Product.id).Nodup ∧
      ∀ i, (ops.foldl applyOp l).find? (fun q => q.id == i) =
             ops.foldl (trackOp i) (l.find? (fun q => q.id == i)) := by
  induction ops with
  | nil => exact fun l hnd _ _ => ⟨hnd, fun _ => rfl⟩
  | cons op rest ih =>
      intro l hnd hfresh haddnd
      rw [List.foldl_cons]
      cases op with
      | add p =>
          have hp : p.id ∉ l.map Product.id := hfresh p (List.mem_cons_self _ _)
          have haddnd2 : (p.id :: addIds rest).Nodup := by simpa [addIds] using haddnd
          have hnd2 : ((applyOp l (CatalogOp.add p)).map Product.id).Nodup := by
            simp only [applyOp, addProduct, List.map_append, List.map_cons, List.map_nil]
            rw [List.nodup_append]
            refine ⟨hnd, List.nodup_singleton _, ?_⟩
            intro a ha hb
            rw [List.mem_singleton.mp hb] at ha
            exact hp ha
          have hfresh2 : ∀ q, CatalogOp.add q ∈ rest →
              q.id ∉ (applyOp l (CatalogOp.add p)).map Product.id := by
            intro q hq
            simp only [applyOp, addProduct, List.map_append, List.map_cons, List.map_nil,
              List.mem_append, List.mem_singleton]
            rintro (h1 | h2)
            · exact hfresh q (List.mem_cons_of_mem _ hq) h1
            · exact (List.nodup_cons.mp haddnd2).1 (h2 ▸ mem_addIds hq)
          have hrest := ih (applyOp l (CatalogOp.add p)) hnd2 hfresh2
            (List.nodup_cons.mp haddnd2).2
          refine ⟨hrest.1, fun i => ?_⟩
          rw [hrest.2 i, List.foldl_cons]
          have hstep : (applyOp l (CatalogOp.add p)).find? (fun q => q.id == i) =
              trackOp i (l.find? (fun q => q.id == i)) (CatalogOp.add p) :=
            find?_addProduct l p i hp
          rw [hstep]
      | update p =>
          have hnd2 : ((applyOp l (CatalogOp.update p)).map Product.id).Nodup := by
            simpa only [applyOp, map_id_updateProduct] using hnd
          have hfresh2 : ∀ q, CatalogOp.add q ∈ rest →
              q.id ∉ (applyOp l (CatalogOp.update p)).map Product.id := by
            intro q hq
            simp only [applyOp, map_id_updateProduct]
            exact hfresh q (List.mem_cons_of_mem _ hq)
          have hrest := ih (applyOp l (CatalogOp.update p)) hnd2 hfresh2
            (by simpa [addIds] using haddnd)
          refine ⟨hrest.1, fun i => ?_⟩
          rw [hrest.2 i, List.foldl_cons]
          rw [show (applyOp l (CatalogOp.update p)).find? (fun q => q.id == i) =
              trackOp i (l.find? (fun q => q.id == i)) (CatalogOp.update p) from
            find?_updateProduct l p i]
      | delete j =>
          have hsub : ((applyOp l (CatalogOp.delete j)).map Product.id).Sublist
              (l.map Product.id) :=
            (List.filter_sublist l).map Product.id
          have hnd2 : ((applyOp l (CatalogOp.delete j)).map Product.id).Nodup :=
            hnd.sublist hsub
          have hfresh2 : ∀ q, CatalogOp.add q ∈ rest →
              q.id ∉ (applyOp l (CatalogOp.delete j)).map Product.id := by
            intro q hq hmem
            exact hfresh q (List.mem_cons_of_mem _ hq) (hsub.subset hmem)
          have hrest := ih (applyOp l (CatalogOp.delete j)) hnd2 hfresh2
            (by simpa [addIds] using haddnd)
          refine ⟨hrest.1, fun i => ?_⟩
          rw [hrest.2 i, List.foldl_cons]
          rw [show (applyOp l (CatalogOp.delete j)).find? (fun q => q.id == i) =
              trackOp i (l.find? (fun q => q.id == i)) (CatalogOp.delete j) from
            find?_deleteProduct l j i]

theorem find?_id_of_mem {l : List Product} (hnd : (l.map Product.id).Nodup)
    {p : Product} (hp : p ∈ l) :
    l.find? (fun q => q.id == p.id) = some p := by
  cases hq : l.find? (fun q => q.id == p.id) with
  | none => exact absurd (by simp) (List.find?_eq_none.mp hq p hp)
  | some w =>
      have hwmem := List.mem_of_find?_eq_some hq
      have hwid : w.id = p.id := by simpa using List.find?_some hq
      rw [List.inj_on_of_nodup_map hnd hwmem hp hwid]

/-- C3: for every operation sequence from the empty catalog in which each
add supplies an id distinct from every id previously added, the catalog
has at most one entry per id (its id list has no duplicates), lookup by id
agrees with the history value `specValue` — the most recent update's field
values for an id added and not subsequently deleted, the original add's
values if never updated, and nothing for a deleted id — and membership in
the catalog is exactly carrying the history value of one's id. -/
theorem catalog_history_correct (ops : List CatalogOp)
    (hadd : (addIds ops).Nodup) :
    ((applyOps ops).map Product.id).Nodup ∧
    (∀ i, (applyOps ops).find? (fun q => q.id == i) = specValue ops i) ∧
    (∀ p : Product, p ∈ applyOps ops ↔ specValue ops p.id = some p) := by
  have h := foldl_applyOp_char ops [] (by simp) (by simp) hadd
  refine ⟨h.1, fun i => h.2 i, fun p => ?_⟩
  have h2 : (applyOps ops).find? (fun q => q.id == p.id) = specValue ops p.id :=
    h.2 p.id
  constructor
  · intro hp
    rw [← h2]
    exact find?_id_of_mem h.1 hp
  · intro hs
    rw [← h2] at hs
    exact List.mem_of_find?_eq_some hs

/-- Witness for C3 at a concrete history: add two products, update the
first, delete the second — the catalog retains exactly the updated first
product. -/
theorem catalog_history_correct_witness :
    ((applyOps [CatalogOp.add demoA, CatalogOp.add demoB,
        CatalogOp.update { demoA with price := 8 },
        CatalogOp.delete "b2"]).map Product.id).Nodup ∧
    (∀ i, (applyOps [CatalogOp.add demoA, CatalogOp.add demoB,
        CatalogOp.update { demoA with price := 8 },
        CatalogOp.delete "b2"]).find? (fun q => q.id == i) =
      specValue [CatalogOp.add demoA, CatalogOp.add demoB,
        CatalogOp.update { demoA with price := 8 },
        CatalogOp.delete "b2"] i) ∧
    (∀ p : Product, p ∈ applyOps [CatalogOp.add demoA, CatalogOp.add demoB,
        CatalogOp.update { demoA with price := 8 },
        CatalogOp.delete "b2"] ↔
      specValue [CatalogOp.add demoA, CatalogOp.add demoB,
        CatalogOp.update { demoA with price := 8 },
        CatalogOp.delete "b2"] p.id = some p) :=
  catalog_history_correct
    [CatalogOp.add demoA, CatalogOp.add demoB,
     CatalogOp.update { demoA with price := 8 },
     CatalogOp.delete "b2"] (by decide)

theorem applyOps_ids_sublist (ops : List CatalogOp) :
    ∀ l : List Product,
      ((ops.foldl applyOp l).map Product.id).Sublist (l.map Product.id ++ addIds ops) := by
  induction ops with
  | nil => intro l; simp
  | cons op rest ih =>
      intro l
      rw [List.foldl_cons]
      cases op with
      | add p =>
          have h := ih (applyOp l (CatalogOp.add p))
          simp only [applyOp, addProduct, List.map_append, List.map_cons,
            List.map_nil] at h
          simpa [addIds, List.append_assoc] using h
      | update p =>
          have h := ih (applyOp l (CatalogOp.update p))
          simp only [applyOp, map_id_updateProduct] at h
          simpa [addIds] using h
      | delete j =>
          have h := ih (applyOp l (CatalogOp.delete j))
          refine h.trans ?_
          simp only [applyOp, addIds]
          exact List.Sublist.append ((List.filter_sublist l).map Product.id)
            (List.Sublist.refl _)

/-- C4: barcode lookup returns an absence signal (`none`, not an error)
exactly when no product matches, and returns `some p` exactly when `p`
matches and the catalog splits as a prefix of non-matching products
followed by `p` — the first match in store order; moreover every catalog
reachable by add/update/delete from empty lists ids in insertion order
(its id list is a sublist of the ids in add order), so among products
sharing a barcode the first-added one is returned. -/
theorem findByBarcode_first_match (products : List Product) (barcode : String) :
    (findByBarcode products barcode = none ↔ ∀ p ∈ products, p.barcode ≠ barcode) ∧
    (∀ p : Product, findByBarcode products barcode = some p ↔
        p.barcode = barcode ∧
        ∃ l₁ l₂, products = l₁ ++ p :: l₂ ∧ ∀ q ∈ l₁, q.barcode ≠ barcode) ∧
    (∀ ops : List CatalogOp, ((applyOps ops).map Product.id).Sublist (addIds ops)) := by
  refine ⟨?_, fun p => ?_, fun ops => ?_⟩
  · simp [findByBarcode, List.find?_eq_none]
  · rw [show findByBarcode products barcode
        = products.find? (fun q => q.barcode == barcode) from rfl,
      List.find?_eq_some]
    simp
  · simpa using applyOps_ids_sublist ops []

theorem forall₂_map_self {α : Type} (f : α → α) (R : α → α → Prop) :
    ∀ l : List α, (∀ a ∈ l, R a (f a)) → List.Forall₂ R l (l.map f)
  | [], _ => List.Forall₂.nil
  | a :: t, h =>
      List.Forall₂.cons (h a (List.mem_cons_self a t))
        (forall₂_map_self f R t fun x hx => h x (List.mem_cons_of_mem a hx))

theorem handleScan_products (s : AppState) (b : String) :
    (handleScan s b).products = s.products := by
  unfold handleScan
  cases findByBarcode s.products b <;> rfl

theorem handleScan_cart_found (s : AppState) (b : String) (p : Product)
    (hres : findByBarcode s.products b = some p) :
    (handleScan s b).cart = scanCartUpdate s.cart p b := by
  simp [handleScan, hres]

/-- C5: when a scanned barcode resolves to a product, the scan merges into
the cart — if a line with that barcode exists, the new cart is line-wise
the old cart with the matching line's quantity incremented by 1 and every
other line unchanged; otherwise a new line with quantity 1 is appended;
and scanning the same barcode twice from a cart without it yields exactly
one line for that barcode, with quantity 2, never two lines. -/
theorem scan_merges_cart (s : AppState) (b : String) (p : Product)
    (hres : findByBarcode s.products b = some p) :
    ((∃ item ∈ s.cart, item.product.barcode = b) →
        List.Forall₂ (fun old new =>
            new.product = old.product ∧
            new.quantity = old.quantity + (if old.product.barcode = b then 1 else 0))
          s.cart (handleScan s b).cart) ∧
    ((∀ item ∈ s.cart, item.product.barcode ≠ b) →
        (handleScan s b).cart = s.cart ++ [{ product := p, quantity := 1 }]) ∧
    ((∀ item ∈ s.cart, item.product.barcode ≠ b) →
        (handleScan (handleScan s b) b).cart.filter
            (fun item => item.product.barcode == b)
          = [{ product := p, quantity := 2 }]) := by
  have hpb : p.barcode = b := by
    have := List.find?_some
      (show List.find? (fun q : Product => q.barcode == b) s.products = some p from hres)
    simpa using this
  have hcart : (handleScan s b).cart = scanCartUpdate s.cart p b :=
    handleScan_cart_found s b p hres
  have happend : (∀ item ∈ s.cart, item.product.barcode ≠ b) →
      (handleScan s b).cart = s.cart ++ [{ product := p, quantity := 1 }] := by
    intro h
    have hf : s.cart.find? (fun it => it.product.barcode == b) = none :=
      List.find?_eq_none.mpr fun x hx => by simp [h x hx]
    rw [hcart]
    unfold scanCartUpdate
    rw [hf]
  refine ⟨?_, happend, ?_⟩
  · rintro ⟨item, hmem, hbar⟩
    cases hf : s.cart.find? (fun it => it.product.barcode == b) with
    | none =>
        exact absurd (show (item.product.barcode == b) = true by simp [hbar])
          (List.find?_eq_none.mp hf item hmem)
    | some w =>
        rw [hcart]
        unfold scanCartUpdate
        rw [hf]
        refine forall₂_map_self _ _ s.cart fun a _ => ?_
        by_cases hab : a.product.barcode = b
        · simp [hab]
        · simp [hab]
  · intro h
    have hstep := happend h
    have hf : s.cart.find? (fun it => it.product.barcode == b) = none :=
      List.find?_eq_none.mpr fun x hx => by simp [h x hx]
    have hcart2 := handleScan_cart_found (handleScan s b) b p
      (by rw [handleScan_products]; exact hres)
    have hfind2 : (s.cart ++ [({ product := p, quantity := 1 } : CartItem)]).find?
        (fun it => it.product.barcode == b) = some { product := p, quantity := 1 } := by
      rw [List.find?_append, hf]
      simp [hpb]
    have hmap : scanCartUpdate (s.cart ++ [({ product := p, quantity := 1 } : CartItem)]) p b =
        (s.cart ++ [({ product := p, quantity := 1 } : CartItem)]).map
          (fun item => if item.product.barcode == b
            then { item with quantity := item.quantity + 1 } else item) := by
      unfold scanCartUpdate
      rw [hfind2]
    have e1 : ((s.cart.map (fun item => if item.product.barcode == b
          then { item with quantity := item.quantity + 1 } else item)).filter
            (fun item => item.product.barcode == b)) = [] := by
      rw [List.filter_eq_nil_iff]
      intro x hx
      obtain ⟨a, ha, rfl⟩ := List.mem_map.mp hx
      by_cases hab : a.product.barcode = b
      · exact absurd hab (h a ha)
      · simp [hab]
    rw [hcart2, hstep, hmap, List.map_append, List.filter_append, e1]
    norm_num [hpb]

/-- Witness for C5 at a concrete session: scanning barcode 6901 twice from
the empty cart against a one-product catalog leaves exactly one cart line
for that barcode, with quantity 2. -/
theorem scan_merges_cart_witness :
    (handleScan (handleScan demoState "6901") "6901").cart.filter
        (fun item => item.product.barcode == "6901")
      = [{ product := demoA, quantity := 2 }] :=
  (scan_merges_cart demoState "6901" demoA rfl).2.2 (by decide)

end Shop
